import Mathlib

/-!
Formal model of the SUMOxPyPSA coupling engine.

The definitions below are a shallow embedding of the per-tick pipeline of the
repository: the economic dispatch, line-flow estimation, violation check and
battery state-of-charge update of `manhattan_power_network.py`, and the
traffic-light phase machine and EV-charging coordinator of `app.py`.
Machine floats are modelled as rationals; the wall-clock and random draws of
the source are passed in as explicit parameters, constrained to the range the
source library guarantees for them.  Vehicle and station identifiers are
modelled as natural numbers.
-/

namespace SUMOxPyPSA

/-! ### Generators and economic dispatch (`manhattan_power_network.py`) -/

/-- Generator type tags as used in the `type` field of the generator dicts. -/
inductive GenType where
  | solar_pv
  | wind
  | gas_turbine
  | combined_cycle
  | steam_turbine
  | battery
  | diesel
  | fuel_cell
  deriving DecidableEq

/-- One generator record, with the fields `_economic_dispatch` and
`_update_battery_soc` read or write.  `must_run` models `gen.get(must_run)`,
which is absent (falsy) for every generator the repository builds. -/
structure Gen where
  gtype : GenType
  capacity_mw : ℚ
  min_mw : ℚ
  cost_per_mwh : ℚ
  must_run : Bool
  current_output : ℚ
  current_soc : ℚ
  energy_capacity_mwh : ℚ
  efficiency : ℚ
  deriving DecidableEq

/-- Renewable types taken first by the dispatch loop. -/
def isRenewable : GenType → Bool
  | GenType.solar_pv => true
  | GenType.wind => true
  | _ => false

/-- Thermal types served in the merit-order loop. -/
def isThermal : GenType → Bool
  | GenType.gas_turbine => true
  | GenType.combined_cycle => true
  | GenType.steam_turbine => true
  | _ => false

instance genCostLeDec :
    DecidableRel (fun a b : Gen => a.cost_per_mwh ≤ b.cost_per_mwh) :=
  fun a b => inferInstanceAs (Decidable (a.cost_per_mwh ≤ b.cost_per_mwh))

instance genCostLeTotal : IsTotal Gen (fun a b => a.cost_per_mwh ≤ b.cost_per_mwh) :=
  ⟨fun a b => le_total a.cost_per_mwh b.cost_per_mwh⟩

instance genCostLeTrans : IsTrans Gen (fun a b => a.cost_per_mwh ≤ b.cost_per_mwh) :=
  ⟨fun _ _ _ h1 h2 => le_trans h1 h2⟩

/-- The `sorted(self.generators.items(), key=cost_per_mwh)` step: a stable
sort ascending by marginal cost (insertion sort is stable, like the sort of
the source language). -/
def sortByCost (gens : List Gen) : List Gen :=
  List.insertionSort (fun a b => a.cost_per_mwh ≤ b.cost_per_mwh) gens

/-- Solar output assignment inside the renewable loop.  `sinVal` stands for
the value `sin((hour - 6) * pi / 12)` the source computes; it is passed in
because the claims do not constrain it numerically. -/
def solar_update (hour : ℕ) (sinVal : ℚ) (g : Gen) : Gen :=
  if g.gtype = GenType.solar_pv then
    if 6 ≤ hour ∧ hour ≤ 18 then
      { g with current_output := g.capacity_mw * sinVal * (85/100) }
    else
      { g with current_output := 0 }
  else g

/-- First dispatch loop: renewables are taken first, each one reducing the
remaining load by its output (a wind generator keeps its stored output). -/
def renewable_pass (hour : ℕ) (sinVal : ℚ) : List Gen → ℚ → List Gen × ℚ
  | [], remaining => ([], remaining)
  | g :: gs, remaining =>
    if isRenewable g.gtype then
      let g2 := solar_update hour sinVal g
      let rest := renewable_pass hour sinVal gs (remaining - g2.current_output)
      (g2 :: rest.1, rest.2)
    else
      let rest := renewable_pass hour sinVal gs remaining
      (g :: rest.1, rest.2)

/-- Second dispatch loop: thermal units in merit order.  While load remains,
a unit produces `min(capacity, max(min_mw, remaining))`; once the load is
met a unit produces `min_mw` if must-run, else `0`. -/
def thermal_pass : List Gen → ℚ → List Gen × ℚ
  | [], remaining => ([], remaining)
  | g :: gs, remaining =>
    if isThermal g.gtype then
      if 0 < remaining then
        let out := min g.capacity_mw (max g.min_mw remaining)
        let rest := thermal_pass gs (remaining - out)
        ({ g with current_output := out } :: rest.1, rest.2)
      else
        let rest := thermal_pass gs remaining
        ({ g with current_output := if g.must_run then g.min_mw else 0 } :: rest.1, rest.2)
    else
      let rest := thermal_pass gs remaining
      (g :: rest.1, rest.2)

/-- Third dispatch loop: battery storage.  Remaining shortfall is discharged
while the state of charge is above 0.2; a surplus beyond 50 MW charges the
battery while the state of charge is below 0.9. -/
def battery_pass : List Gen → ℚ → List Gen × ℚ
  | [], remaining => ([], remaining)
  | g :: gs, remaining =>
    if g.gtype = GenType.battery then
      if 0 < remaining ∧ 1/5 < g.current_soc then
        let discharge :=
          min g.capacity_mw (min remaining (g.current_soc * g.energy_capacity_mwh))
        let rest := battery_pass gs (remaining - discharge)
        ({ g with current_output := discharge } :: rest.1, rest.2)
      else if remaining < -50 ∧ g.current_soc < 9/10 then
        let charge :=
          min g.capacity_mw (min (-remaining) ((1 - g.current_soc) * g.energy_capacity_mwh))
        let rest := battery_pass gs (remaining + charge)
        ({ g with current_output := -charge } :: rest.1, rest.2)
      else
        let rest := battery_pass gs remaining
        (g :: rest.1, rest.2)
    else
      let rest := battery_pass gs remaining
      (g :: rest.1, rest.2)

/-- The `_economic_dispatch` pass over one tick.  `total_load` is the load
snapshot, `hour` the wall-clock hour and `sinVal` the solar curve value.
The source iterates its battery loop over the generator dict in insertion
order; only battery entries touch the threaded remaining load there, and the
stable sort keeps equal-cost batteries in insertion order, so iterating the
sorted list is observationally the same.  The write-only accumulator
`self.total_generation` of the source is not modelled. -/
def economic_dispatch (hour : ℕ) (sinVal : ℚ) (total_load : ℚ) (gens : List Gen) :
    List Gen × ℚ :=
  let sorted := sortByCost gens
  let r := renewable_pass hour sinVal sorted total_load
  let t := thermal_pass r.1 r.2
  battery_pass t.1 t.2

/-- Sum of the outputs of the renewable generators in a list. -/
def renewable_output_sum (gens : List Gen) : ℚ :=
  ((gens.filter (fun g => isRenewable g.gtype)).map Gen.current_output).sum

/-! ### Line flows and violation check (`manhattan_power_network.py`) -/

/-- One line record with the fields `_calculate_line_flows` and
`_check_violations` use. -/
structure Line where
  voltage : ℚ
  capacity_mw : ℚ
  current_flow : ℚ
  deriving DecidableEq

/-- Flow estimate of `_calculate_line_flows` for one line: proportional to
`total_load * 0.001 * capacity`, scaled by a voltage-class multiplier and
capped at a voltage-class fraction of capacity. -/
def calculate_line_flow (total_load : ℚ) (line : Line) : Line :=
  let base_flow := total_load * (1/1000) * line.capacity_mw
  if line.voltage = 138 then
    { line with current_flow := min (base_flow * (3/2)) (line.capacity_mw * (4/5)) }
  else if line.voltage = 27 then
    { line with current_flow := min (base_flow * (6/5)) (line.capacity_mw * (7/10)) }
  else if line.voltage = 69/5 then
    { line with current_flow := min (base_flow * 1) (line.capacity_mw * (3/5)) }
  else
    { line with current_flow := min (base_flow * (4/5)) (line.capacity_mw * (1/2)) }

/-- Flow estimates for the whole line table. -/
def calculate_line_flows (total_load : ℚ) (lines : List Line) : List Line :=
  lines.map (calculate_line_flow total_load)

/-- Voltage-class flow multiplier of `_calculate_line_flows`. -/
def voltage_multiplier (v : ℚ) : ℚ :=
  if v = 138 then 3/2 else if v = 27 then 6/5 else if v = 69/5 then 1 else 4/5

/-- Voltage-class capacity-fraction cap of `_calculate_line_flows`. -/
def voltage_cap_fraction (v : ℚ) : ℚ :=
  if v = 138 then 4/5 else if v = 27 then 7/10 else if v = 69/5 then 3/5 else 1/2

/-- Violation entry kinds appended by `_check_violations`. -/
inductive ViolationKind where
  | line_overload
  | high_loading
  | transformer_overload
  deriving DecidableEq

/-- Severity values of a violation entry. -/
inductive Severity where
  | critical
  | warning
  deriving DecidableEq

/-- One thermal-violation entry; for a line `level` holds the utilization
percentage, for a transformer the loading percentage. -/
structure ThermalViolation where
  kind : ViolationKind
  severity : Severity
  level : ℚ
  deriving DecidableEq

/-- Line utilization as computed by `_check_violations`:
`flow / capacity * 100` when the capacity is positive, else `0`. -/
def line_utilization (line : Line) : ℚ :=
  if 0 < line.capacity_mw then line.current_flow / line.capacity_mw * 100 else 0

/-- The per-line branch of `_check_violations`. -/
def check_line (line : Line) : Option ThermalViolation :=
  let u := line_utilization line
  if 100 < u then
    some ⟨ViolationKind.line_overload,
          if 120 < u then Severity.critical else Severity.warning, u⟩
  else if 90 < u then
    some ⟨ViolationKind.high_loading, Severity.warning, u⟩
  else
    none

/-- The per-transformer branch of `_check_violations`; the loading is the
placeholder value the source draws from a uniform distribution on [60, 95]. -/
def check_transformer (loading : ℚ) : Option ThermalViolation :=
  if 100 < loading then
    some ⟨ViolationKind.transformer_overload, Severity.critical, loading⟩
  else
    none

/-- The thermal-violation list built by `_check_violations` from the line
table and the drawn transformer loadings. -/
def check_violations (lines : List Line) (xfmr_loadings : List ℚ) :
    List ThermalViolation :=
  lines.filterMap check_line ++ xfmr_loadings.filterMap check_transformer

/-- The flow-then-violation portion of `simulate_power_flow`: estimate every
line flow, then collect thermal violations. -/
def flow_violation_pass (total_load : ℚ) (lines : List Line)
    (xfmr_loadings : List ℚ) : List ThermalViolation :=
  check_violations (calculate_line_flows total_load lines) xfmr_loadings

/-! ### Battery state-of-charge update (`_update_battery_soc`) -/

/-- Per-generator body of `_update_battery_soc` with the fixed quarter-hour
time step of the source.  Discharge divides by the efficiency, charge
multiplies by it, and the result is clamped to [0, 1]. -/
def update_battery_soc_gen (g : Gen) : Gen :=
  if g.gtype = GenType.battery then
    let soc1 :=
      if 0 < g.current_output then
        g.current_soc - g.current_output * (1/4) / g.efficiency / g.energy_capacity_mwh
      else if g.current_output < 0 then
        g.current_soc + -g.current_output * (1/4) * g.efficiency / g.energy_capacity_mwh
      else
        g.current_soc
    { g with current_soc := max 0 (min 1 soc1) }
  else g

/-- The `_update_battery_soc` loop over the generator table. -/
def update_battery_soc (gens : List Gen) : List Gen :=
  gens.map update_battery_soc_gen

/-- The battery of the numerical scenario: SOC 0.5, 200 MWh energy capacity,
50 MW discharge, efficiency 0.9. -/
def socScenarioBattery : Gen :=
  { gtype := GenType.battery
    capacity_mw := 50
    min_mw := -50
    cost_per_mwh := 15
    must_run := false
    current_output := 50
    current_soc := 1/2
    energy_capacity_mwh := 200
    efficiency := 9/10 }

/-- C6: the per-tick SOC update subtracts `output * dt / efficiency /
capacity` on discharge, adds `|output| * dt * efficiency / capacity` on
charge, clamps to [0, 1], and on the scenario battery yields exactly
`0.5 - (50 * 0.25 / 0.9) / 200 = 31/72`. -/
theorem battery_soc_update_formula (g : Gen) (hb : g.gtype = GenType.battery) :
    (0 < g.current_output →
      (update_battery_soc_gen g).current_soc =
        max 0 (min 1 (g.current_soc -
          g.current_output * (1/4) / g.efficiency / g.energy_capacity_mwh)))
    ∧ (g.current_output < 0 →
      (update_battery_soc_gen g).current_soc =
        max 0 (min 1 (g.current_soc +
          -g.current_output * (1/4) * g.efficiency / g.energy_capacity_mwh)))
    ∧ 0 ≤ (update_battery_soc_gen g).current_soc
    ∧ (update_battery_soc_gen g).current_soc ≤ 1
    ∧ (update_battery_soc_gen socScenarioBattery).current_soc = 31/72 := by
  have hscen : (update_battery_soc_gen socScenarioBattery).current_soc = 31/72 := by
    norm_num [update_battery_soc_gen, socScenarioBattery]
  refine ⟨?_, ?_, ?_, ?_, hscen⟩
  · intro hpos
    simp [update_battery_soc_gen, hb, hpos]
  · intro hneg
    have hnpos : ¬ 0 < g.current_output := by linarith
    simp [update_battery_soc_gen, hb, hneg, hnpos]
  · simp only [update_battery_soc_gen, hb, if_pos rfl]
    exact le_max_left 0 _
  · simp only [update_battery_soc_gen, hb, if_pos rfl]
    exact max_le (by norm_num) (min_le_left 1 _)

/-- Witness for C6 at the scenario battery. -/
theorem battery_soc_update_formula_witness :
    socScenarioBattery.gtype = GenType.battery ∧
      (update_battery_soc_gen socScenarioBattery).current_soc = 31/72 :=
  ⟨rfl, (battery_soc_update_formula socScenarioBattery rfl).2.2.2.2⟩

/-- C7: the estimated flow of every line equals
`total_load * 0.001 * capacity` scaled by the voltage-class multiplier
(138 kV: 1.5, 27 kV: 1.2, 13.8 kV: 1.0, else 0.8) and capped at the class
fraction of capacity (0.8, 0.7, 0.6, 0.5 respectively), with voltage and
capacity untouched. -/
theorem line_flow_multiplier_cap (total_load : ℚ) (line : Line) :
    (calculate_line_flow total_load line).current_flow =
      min (total_load * (1/1000) * line.capacity_mw * voltage_multiplier line.voltage)
          (line.capacity_mw * voltage_cap_fraction line.voltage)
    ∧ (calculate_line_flow total_load line).voltage = line.voltage
    ∧ (calculate_line_flow total_load line).capacity_mw = line.capacity_mw := by
  unfold calculate_line_flow voltage_multiplier voltage_cap_fraction
  split_ifs <;> simp

/-- C2 counterexample: a line at utilization 110 (flow 110 on capacity 100)
is flagged with severity warning, not critical, refuting that every
utilization above 100 is flagged critical. -/
theorem line_overload_at_110_not_critical :
    line_utilization ⟨138, 100, 110⟩ = 110
    ∧ check_line ⟨138, 100, 110⟩ =
        some ⟨ViolationKind.line_overload, Severity.warning, 110⟩
    ∧ Severity.warning ≠ Severity.critical := by
  have hu : line_utilization ⟨138, 100, 110⟩ = 110 := by
    norm_num [line_utilization]
  refine ⟨hu, ?_, by simp⟩
  rw [check_line, hu]
  norm_num

/-- C2 (amended): utilization is nonnegative for a nonnegative flow; a line
with utilization above 120 is flagged a critical overload; utilization in
(100, 120] is flagged an overload of severity warning; utilization in
(90, 100] is flagged high loading of severity warning; and any line flagged
critical has utilization above 100. -/
theorem line_violation_thresholds (line : Line) (hflow : 0 ≤ line.current_flow) :
    0 ≤ line_utilization line
    ∧ (120 < line_utilization line →
        check_line line =
          some ⟨ViolationKind.line_overload, Severity.critical, line_utilization line⟩)
    ∧ (100 < line_utilization line → line_utilization line ≤ 120 →
        check_line line =
          some ⟨ViolationKind.line_overload, Severity.warning, line_utilization line⟩)
    ∧ (90 < line_utilization line → line_utilization line ≤ 100 →
        check_line line =
          some ⟨ViolationKind.high_loading, Severity.warning, line_utilization line⟩)
    ∧ (∀ v : ThermalViolation, check_line line = some v →
        v.severity = Severity.critical → 100 < line_utilization line) := by
  refine ⟨?_, ?_, ?_, ?_, ?_⟩
  · unfold line_utilization
    split_ifs with hc
    · have : 0 ≤ line.current_flow / line.capacity_mw := div_nonneg hflow (le_of_lt hc)
      positivity
    · exact le_refl 0
  · intro h120
    have h100 : 100 < line_utilization line := by linarith
    rw [check_line]
    simp only [if_pos h100, if_pos h120]
  · intro h100 h120
    have hn : ¬ 120 < line_utilization line := by linarith
    rw [check_line]
    simp only [if_pos h100, if_neg hn]
  · intro h90 h100
    have hn : ¬ 100 < line_utilization line := by linarith
    rw [check_line]
    simp only [if_neg hn, if_pos h90]
  · intro v hv hcrit
    rw [check_line] at hv
    by_cases h100 : 100 < line_utilization line
    · exact h100
    · exfalso
      rw [if_neg h100] at hv
      by_cases h90 : 90 < line_utilization line
      · rw [if_pos h90] at hv
        cases hv
        simp at hcrit
      · rw [if_neg h90] at hv
        cases hv

/-- Witness for C2 (amended) on a concrete line with nonnegative flow. -/
theorem line_violation_thresholds_witness :
    0 ≤ Line.current_flow ⟨138, 100, 50⟩
    ∧ 0 ≤ line_utilization ⟨138, 100, 50⟩ :=
  ⟨by norm_num, (line_violation_thresholds ⟨138, 100, 50⟩ (by norm_num)).1⟩

/-- A line whose flow is at most a fraction of its capacity, the fraction at
most 0.8, has utilization at most 80. -/
theorem utilization_le_80_of_capped (l : Line) (frac : ℚ)
    (hle : l.current_flow ≤ l.capacity_mw * frac) (hfrac : frac ≤ 4/5) :
    line_utilization l ≤ 80 := by
  unfold line_utilization
  split_ifs with hc
  · have hdiv : l.current_flow / l.capacity_mw ≤ frac := by
      rw [div_le_iff hc]
      linarith [mul_comm l.capacity_mw frac]
    calc l.current_flow / l.capacity_mw * 100 ≤ frac * 100 := by
          exact mul_le_mul_of_nonneg_right hdiv (by norm_num)
      _ ≤ 80 := by linarith
  · norm_num

/-- The estimated flow of `calculate_line_flow` keeps utilization at or
below 80 for every line and every system load. -/
theorem line_utilization_after_flow_le_80 (total_load : ℚ) (line : Line) :
    line_utilization (calculate_line_flow total_load line) ≤ 80 := by
  unfold calculate_line_flow
  split_ifs with h1 h2 h3
  · exact utilization_le_80_of_capped _ (4/5) (min_le_right _ _) (by norm_num)
  · exact utilization_le_80_of_capped _ (7/10) (min_le_right _ _) (by norm_num)
  · exact utilization_le_80_of_capped _ (3/5) (min_le_right _ _) (by norm_num)
  · exact utilization_le_80_of_capped _ (1/2) (min_le_right _ _) (by norm_num)

/-- C10: after a full flow-then-violation pass, the thermal-violation list
is empty: every estimated line flow is capped at no more than 80 percent of
capacity, below both the 90 warning and 100 overload thresholds, and every
placeholder transformer loading drawn from [60, 95] is below 100; hence the
reported thermal-violation count is 0. -/
theorem flow_violation_pass_empty (total_load : ℚ) (lines : List Line)
    (xfmr_loadings : List ℚ)
    (hld : ∀ l ∈ xfmr_loadings, 60 ≤ l ∧ l ≤ 95) :
    flow_violation_pass total_load lines xfmr_loadings = []
    ∧ (flow_violation_pass total_load lines xfmr_loadings).length = 0 := by
  have hmain : flow_violation_pass total_load lines xfmr_loadings = [] := by
    unfold flow_violation_pass check_violations calculate_line_flows
    rw [List.append_eq_nil]
    constructor
    · rw [List.filterMap_eq_nil]
      intro l hl
      rw [List.mem_map] at hl
      obtain ⟨l0, _, rfl⟩ := hl
      have h80 := line_utilization_after_flow_le_80 total_load l0
      unfold check_line
      have hn100 : ¬ 100 < line_utilization (calculate_line_flow total_load l0) := by
        linarith
      have hn90 : ¬ 90 < line_utilization (calculate_line_flow total_load l0) := by
        linarith
      simp only [if_neg hn100, if_neg hn90]
    · rw [List.filterMap_eq_nil]
      intro l hl
      have hb := hld l hl
      unfold check_transformer
      have : ¬ 100 < l := by linarith [hb.2]
      simp only [if_neg this]
  exact ⟨hmain, by rw [hmain]; rfl⟩

/-- Witness for C10 on a concrete line table and transformer draw. -/
theorem flow_violation_pass_empty_witness :
    (∀ l ∈ [(80 : ℚ)], 60 ≤ l ∧ l ≤ 95)
    ∧ flow_violation_pass 100 [⟨138, 100, 0⟩] [(80 : ℚ)] = [] := by
  have hld : ∀ l ∈ [(80 : ℚ)], 60 ≤ l ∧ l ≤ 95 := by
    intro l hl
    rw [List.mem_singleton] at hl
    subst hl
    norm_num
  exact ⟨hld, (flow_violation_pass_empty 100 [⟨138, 100, 0⟩] [(80 : ℚ)] hld).1⟩

/-- Solar update only rewrites the output field. -/
theorem solar_update_fields (hour : ℕ) (sinVal : ℚ) (g : Gen) :
    (solar_update hour sinVal g).gtype = g.gtype
    ∧ (solar_update hour sinVal g).capacity_mw = g.capacity_mw
    ∧ (solar_update hour sinVal g).min_mw = g.min_mw
    ∧ (solar_update hour sinVal g).cost_per_mwh = g.cost_per_mwh
    ∧ (solar_update hour sinVal g).must_run = g.must_run
    ∧ (solar_update hour sinVal g).current_soc = g.current_soc
    ∧ (solar_update hour sinVal g).energy_capacity_mwh = g.energy_capacity_mwh := by
  unfold solar_update
  split_ifs <;> simp

/-- The renewable loop maps solar updates over the list, leaving the other
generators untouched. -/
theorem renewable_pass_fst (hour : ℕ) (sinVal : ℚ) (gs : List Gen) (L : ℚ) :
    (renewable_pass hour sinVal gs L).1 =
      gs.map (fun g => if isRenewable g.gtype then solar_update hour sinVal g else g) := by
  induction gs generalizing L with
  | nil => rfl
  | cons g gs ih =>
    by_cases hr : isRenewable g.gtype
    · simp [renewable_pass, hr, ih]
    · simp [renewable_pass, hr, ih]

/-- Splitting the renewable output sum at a cons cell. -/
theorem renewable_output_sum_cons (g : Gen) (gs : List Gen) :
    renewable_output_sum (g :: gs) =
      (if isRenewable g.gtype then g.current_output else 0) + renewable_output_sum gs := by
  by_cases hr : isRenewable g.gtype
  · simp [renewable_output_sum, List.filter_cons, hr]
  · simp [renewable_output_sum, List.filter_cons, hr]

/-- The load remaining after the renewable loop is the total load minus the
sum of the renewable outputs it assigned. -/
theorem renewable_pass_snd (hour : ℕ) (sinVal : ℚ) (gs : List Gen) (L : ℚ) :
    (renewable_pass hour sinVal gs L).2 =
      L - renewable_output_sum (renewable_pass hour sinVal gs L).1 := by
  induction gs generalizing L with
  | nil => simp [renewable_pass, renewable_output_sum]
  | cons g gs ih =>
    by_cases hr : isRenewable g.gtype
    · have hg : isRenewable (solar_update hour sinVal g).gtype = true := by
        rw [(solar_update_fields hour sinVal g).1]
        exact hr
      simp only [renewable_pass, hr, if_pos]
      rw [ih, renewable_output_sum_cons]
      simp only [hg, if_true]
      ring
    · simp only [renewable_pass, hr]
      rw [if_neg (by simp [hr]), ih, renewable_output_sum_cons, if_neg (by simp [hr])]
      ring

/-- A non-thermal entry of the thermal-loop result was already in the input. -/
theorem thermal_pass_mem_nonthermal (gs : List Gen) (rem : ℚ) :
    ∀ g2 ∈ (thermal_pass gs rem).1, isThermal g2.gtype = false → g2 ∈ gs := by
  induction gs generalizing rem with
  | nil => intro g2 h; simp [thermal_pass] at h
  | cons g gs ih =>
    intro g2 hmem hnt
    by_cases ht : isThermal g.gtype
    · by_cases hrem : 0 < rem
      · simp only [thermal_pass, if_pos ht, if_pos hrem, List.mem_cons] at hmem
        rcases hmem with h | h
        · exfalso
          rw [h] at hnt
          simp at hnt
          rw [hnt] at ht
          exact Bool.noConfusion ht
        · exact List.mem_cons_of_mem g (ih _ g2 h hnt)
      · simp only [thermal_pass, if_pos ht, if_neg hrem, List.mem_cons] at hmem
        rcases hmem with h | h
        · exfalso
          rw [h] at hnt
          simp at hnt
          rw [hnt] at ht
          exact Bool.noConfusion ht
        · exact List.mem_cons_of_mem g (ih _ g2 h hnt)
    · simp only [thermal_pass, if_neg ht, List.mem_cons] at hmem
      rcases hmem with h | h
      · exact h ▸ List.mem_cons_self g gs
      · exact List.mem_cons_of_mem g (ih _ g2 h hnt)

/-- Output limits established by the thermal loop: a unit reached with load
remaining produces within [min_mw, capacity]; a unit reached after the load
is met produces min_mw if must-run, else zero. -/
theorem thermal_pass_limits (gs : List Gen) (rem : ℚ)
    (hmc : ∀ g ∈ gs, isThermal g.gtype = true → 0 ≤ g.min_mw ∧ g.min_mw ≤ g.capacity_mw) :
    ∀ g2 ∈ (thermal_pass gs rem).1, isThermal g2.gtype = true →
      (g2.min_mw ≤ g2.current_output ∧ g2.current_output ≤ g2.capacity_mw)
      ∨ g2.current_output = 0
      ∨ (g2.must_run = true ∧ g2.current_output = g2.min_mw) := by
  induction gs generalizing rem with
  | nil => intro g2 h; simp [thermal_pass] at h
  | cons g gs ih =>
    intro g2 hmem ht2
    have hmc_tail : ∀ g ∈ gs, isThermal g.gtype = true →
        0 ≤ g.min_mw ∧ g.min_mw ≤ g.capacity_mw :=
      fun g hg => hmc g (List.mem_cons_of_mem _ hg)
    by_cases ht : isThermal g.gtype
    · have hb := hmc g (List.mem_cons_self g gs) ht
      by_cases hrem : 0 < rem
      · simp only [thermal_pass, if_pos ht, if_pos hrem, List.mem_cons] at hmem
        rcases hmem with h | h
        · left
          rw [h]
          constructor
          · exact le_min hb.2 (le_max_left _ _)
          · exact min_le_left _ _
        · exact ih _ hmc_tail g2 h ht2
      · simp only [thermal_pass, if_pos ht, if_neg hrem, List.mem_cons] at hmem
        rcases hmem with h | h
        · by_cases hmr : g.must_run
          · right; right
            rw [h]
            simp [hmr]
          · right; left
            rw [h]
            simp [hmr]
        · exact ih _ hmc_tail g2 h ht2
    · simp only [thermal_pass, if_neg ht, List.mem_cons] at hmem
      rcases hmem with h | h
      · exfalso
        rw [h] at ht2
        exact ht (by exact ht2)
      · exact ih _ hmc_tail g2 h ht2

/-- A non-battery entry of the battery-loop result was already in the input. -/
theorem battery_pass_mem_nonbattery (gs : List Gen) (rem : ℚ) :
    ∀ g2 ∈ (battery_pass gs rem).1, g2.gtype ≠ GenType.battery → g2 ∈ gs := by
  induction gs generalizing rem with
  | nil => intro g2 h; simp [battery_pass] at h
  | cons g gs ih =>
    intro g2 hmem hnb
    by_cases hbat : g.gtype = GenType.battery
    · by_cases h1 : 0 < rem ∧ 1/5 < g.current_soc
      · simp only [battery_pass, if_pos hbat, if_pos h1, List.mem_cons] at hmem
        rcases hmem with h | h
        · exfalso; apply hnb; rw [h]; exact hbat
        · exact List.mem_cons_of_mem g (ih _ g2 h hnb)
      · by_cases h2 : rem < -50 ∧ g.current_soc < 9/10
        · simp only [battery_pass, if_pos hbat, if_neg h1, if_pos h2,
            List.mem_cons] at hmem
          rcases hmem with h | h
          · exfalso; apply hnb; rw [h]; exact hbat
          · exact List.mem_cons_of_mem g (ih _ g2 h hnb)
        · simp only [battery_pass, if_pos hbat, if_neg h1, if_neg h2,
            List.mem_cons] at hmem
          rcases hmem with h | h
          · exact h ▸ List.mem_cons_self g gs
          · exact List.mem_cons_of_mem g (ih _ g2 h hnb)
    · simp only [battery_pass, if_neg hbat, List.mem_cons] at hmem
      rcases hmem with h | h
      · exact h ▸ List.mem_cons_self g gs
      · exact List.mem_cons_of_mem g (ih _ g2 h hnb)

/-- Battery output limits after the battery loop, provided every battery
enters with nonnegative capacities and an output already within limits. -/
theorem battery_pass_limits (gs : List Gen) (rem : ℚ)
    (hin : ∀ g ∈ gs, g.gtype = GenType.battery →
      0 ≤ g.capacity_mw ∧ 0 ≤ g.energy_capacity_mwh ∧
        -g.capacity_mw ≤ g.current_output ∧ g.current_output ≤ g.capacity_mw) :
    ∀ g2 ∈ (battery_pass gs rem).1, g2.gtype = GenType.battery →
      -g2.capacity_mw ≤ g2.current_output ∧ g2.current_output ≤ g2.capacity_mw := by
  induction gs generalizing rem with
  | nil => intro g2 h; simp [battery_pass] at h
  | cons g gs ih =>
    intro g2 hmem hb2
    have hin_tail : ∀ g ∈ gs, g.gtype = GenType.battery →
        0 ≤ g.capacity_mw ∧ 0 ≤ g.energy_capacity_mwh ∧
          -g.capacity_mw ≤ g.current_output ∧ g.current_output ≤ g.capacity_mw :=
      fun g hg => hin g (List.mem_cons_of_mem _ hg)
    by_cases hbat : g.gtype = GenType.battery
    · have hg := hin g (List.mem_cons_self g gs) hbat
      by_cases h1 : 0 < rem ∧ 1/5 < g.current_soc
      · simp only [battery_pass, if_pos hbat, if_pos h1, List.mem_cons] at hmem
        rcases hmem with h | h
        · rw [h]
          have hd0 : 0 ≤ min g.capacity_mw
              (min rem (g.current_soc * g.energy_capacity_mwh)) := by
            refine le_min hg.1 (le_min (le_of_lt h1.1) ?_)
            exact mul_nonneg (by linarith [h1.2]) hg.2.1
          constructor
          · simp only
            linarith [hd0, hg.1]
          · simp only
            exact min_le_left _ _
        · exact ih _ hin_tail g2 h hb2
      · by_cases h2 : rem < -50 ∧ g.current_soc < 9/10
        · simp only [battery_pass, if_pos hbat, if_neg h1, if_pos h2,
            List.mem_cons] at hmem
          rcases hmem with h | h
          · rw [h]
            have hc0 : 0 ≤ min g.capacity_mw
                (min (-rem) ((1 - g.current_soc) * g.energy_capacity_mwh)) := by
              refine le_min hg.1 (le_min (by linarith [h2.1]) ?_)
              exact mul_nonneg (by linarith [h2.2]) hg.2.1
            constructor
            · simp only
              have := min_le_left g.capacity_mw
                (min (-rem) ((1 - g.current_soc) * g.energy_capacity_mwh))
              linarith
            · simp only
              linarith [hc0, hg.1]
          · exact ih _ hin_tail g2 h hb2
        · simp only [battery_pass, if_pos hbat, if_neg h1, if_neg h2,
            List.mem_cons] at hmem
          rcases hmem with h | h
          · rw [h]
            exact ⟨hg.2.2.1, hg.2.2.2⟩
          · exact ih _ hin_tail g2 h hb2
    · simp only [battery_pass, if_neg hbat, List.mem_cons] at hmem
      rcases hmem with h | h
      · exfalso
        rw [h] at hb2
        exact hbat hb2
      · exact ih _ hin_tail g2 h hb2

/-- Generator A of the merit-order example: cost 50, capacity 100. -/
def genA50 : Gen :=
  { gtype := GenType.gas_turbine, capacity_mw := 100, min_mw := 0, cost_per_mwh := 50,
    must_run := false, current_output := 0, current_soc := 0,
    energy_capacity_mwh := 0, efficiency := 1 }

/-- Generator B of the merit-order example: cost 80, capacity 100. -/
def genB80 : Gen :=
  { gtype := GenType.gas_turbine, capacity_mw := 100, min_mw := 0, cost_per_mwh := 80,
    must_run := false, current_output := 0, current_soc := 0,
    energy_capacity_mwh := 0, efficiency := 1 }

/-- A gas turbine with positive minimum output, as the repository builds
them (East River GT1 has min 50 MW, capacity 180 MW, cost 120). -/
def genIdle120 : Gen :=
  { gtype := GenType.gas_turbine, capacity_mw := 180, min_mw := 50, cost_per_mwh := 120,
    must_run := false, current_output := 0, current_soc := 0,
    energy_capacity_mwh := 0, efficiency := 1 }

/-- A thermal type tag is not the battery tag. -/
theorem isThermal_ne_battery {t : GenType} (h : isThermal t = true) :
    t ≠ GenType.battery := by
  cases t <;> simp_all [isThermal]

/-- Properties of the input generators transport to the renewable-loop
result, whose entries differ from the input only in solar outputs. -/
theorem renewable_pass_transport (hour : ℕ) (sinVal : ℚ) (gs : List Gen) (L : ℚ)
    (P : Gen → Prop)
    (hP : ∀ g ∈ gs, P g)
    (hsolar : ∀ g, P g → P (solar_update hour sinVal g)) :
    ∀ g2 ∈ (renewable_pass hour sinVal gs L).1, P g2 := by
  intro g2 hmem
  rw [renewable_pass_fst] at hmem
  rw [List.mem_map] at hmem
  obtain ⟨g0, hg0, rfl⟩ := hmem
  by_cases hr : isRenewable g0.gtype
  · simp only [hr, if_true]
    exact hsolar g0 (hP g0 hg0)
  · simp only [hr, if_false]
    exact hP g0 hg0

/-- C1 (amended): the dispatch sorts generators ascending by marginal cost;
renewable output is taken off the demand before the thermal loop; every
thermal unit dispatched while demand remains produces within
[min_mw, capacity] while a unit reached after demand is met produces zero
(or min_mw if must-run); every battery output stays within
[-capacity, capacity]; and on generators A(cost 50, cap 100) and
B(cost 80, cap 100) with demand 120, A is dispatched at 100 before B
contributes 20. -/
theorem economic_dispatch_merit_order
    (hour : ℕ) (sinVal : ℚ) (total_load : ℚ) (gens : List Gen)
    (hth : ∀ g ∈ gens, isThermal g.gtype = true →
      0 ≤ g.min_mw ∧ g.min_mw ≤ g.capacity_mw)
    (hbat : ∀ g ∈ gens, g.gtype = GenType.battery →
      0 ≤ g.capacity_mw ∧ 0 ≤ g.energy_capacity_mwh ∧
        -g.capacity_mw ≤ g.current_output ∧ g.current_output ≤ g.capacity_mw) :
    List.Pairwise (fun a b => a.cost_per_mwh ≤ b.cost_per_mwh) (sortByCost gens)
    ∧ (renewable_pass hour sinVal (sortByCost gens) total_load).2
        = total_load -
            renewable_output_sum (renewable_pass hour sinVal (sortByCost gens) total_load).1
    ∧ (∀ g ∈ (economic_dispatch hour sinVal total_load gens).1,
        isThermal g.gtype = true →
          (g.min_mw ≤ g.current_output ∧ g.current_output ≤ g.capacity_mw)
          ∨ g.current_output = 0
          ∨ (g.must_run = true ∧ g.current_output = g.min_mw))
    ∧ (∀ g ∈ (economic_dispatch hour sinVal total_load gens).1,
        g.gtype = GenType.battery →
          -g.capacity_mw ≤ g.current_output ∧ g.current_output ≤ g.capacity_mw)
    ∧ (economic_dispatch 0 0 120 [genB80, genA50]).1 =
        [{ genA50 with current_output := 100 }, { genB80 with current_output := 20 }] := by
  have hsortmem : ∀ g ∈ sortByCost gens, g ∈ gens := by
    intro g hg
    exact (List.mem_insertionSort _).1 hg
  have hthS : ∀ g ∈ sortByCost gens, isThermal g.gtype = true →
      0 ≤ g.min_mw ∧ g.min_mw ≤ g.capacity_mw :=
    fun g hg => hth g (hsortmem g hg)
  have hbatS : ∀ g ∈ sortByCost gens, g.gtype = GenType.battery →
      0 ≤ g.capacity_mw ∧ 0 ≤ g.energy_capacity_mwh ∧
        -g.capacity_mw ≤ g.current_output ∧ g.current_output ≤ g.capacity_mw :=
    fun g hg => hbat g (hsortmem g hg)
  have hthR : ∀ g ∈ (renewable_pass hour sinVal (sortByCost gens) total_load).1,
      isThermal g.gtype = true → 0 ≤ g.min_mw ∧ g.min_mw ≤ g.capacity_mw := by
    refine renewable_pass_transport hour sinVal _ _ _ hthS ?_
    intro g hPg ht
    obtain ⟨hgt, hcap, hmin, _⟩ := solar_update_fields hour sinVal g
    rw [hgt] at ht
    rw [hcap, hmin]
    exact hPg ht
  have hbatR : ∀ g ∈ (renewable_pass hour sinVal (sortByCost gens) total_load).1,
      g.gtype = GenType.battery →
        0 ≤ g.capacity_mw ∧ 0 ≤ g.energy_capacity_mwh ∧
          -g.capacity_mw ≤ g.current_output ∧ g.current_output ≤ g.capacity_mw := by
    intro g2 hmem hb2
    rw [renewable_pass_fst, List.mem_map] at hmem
    obtain ⟨g0, hg0, rfl⟩ := hmem
    by_cases hr : isRenewable g0.gtype
    · exfalso
      simp only [hr, if_true] at hb2
      rw [(solar_update_fields hour sinVal g0).1] at hb2
      rw [hb2] at hr
      exact Bool.noConfusion hr
    · simp only [hr, if_false] at hb2 ⊢
      exact hbatS g0 hg0 hb2
  have hbatT : ∀ g ∈ (thermal_pass
      (renewable_pass hour sinVal (sortByCost gens) total_load).1
      (renewable_pass hour sinVal (sortByCost gens) total_load).2).1,
      g.gtype = GenType.battery →
        0 ≤ g.capacity_mw ∧ 0 ≤ g.energy_capacity_mwh ∧
          -g.capacity_mw ≤ g.current_output ∧ g.current_output ≤ g.capacity_mw := by
    intro g2 hmem hb2
    have hnt : isThermal g2.gtype = false := by
      rw [hb2]
      rfl
    exact hbatR g2 (thermal_pass_mem_nonthermal _ _ g2 hmem hnt) hb2
  refine ⟨?_, renewable_pass_snd hour sinVal _ total_load, ?_, ?_, ?_⟩
  · exact List.sorted_insertionSort _ gens
  · intro g hg ht
    have hg2 : g ∈ (thermal_pass
        (renewable_pass hour sinVal (sortByCost gens) total_load).1
        (renewable_pass hour sinVal (sortByCost gens) total_load).2).1 :=
      battery_pass_mem_nonbattery _ _ g hg (isThermal_ne_battery ht)
    exact thermal_pass_limits _ _ hthR g hg2 ht
  · intro g hg hb
    exact battery_pass_limits _ _ hbatT g hg hb
  · norm_num [economic_dispatch, sortByCost, List.insertionSort, List.orderedInsert,
      renewable_pass, thermal_pass, battery_pass, isRenewable, isThermal,
      solar_update, genA50, genB80]

/-- Witness for C1 (amended) on the concrete A and B generators. -/
theorem economic_dispatch_merit_order_witness :
    (economic_dispatch 0 0 120 [genB80, genA50]).1 =
      [{ genA50 with current_output := 100 }, { genB80 with current_output := 20 }] :=
  (economic_dispatch_merit_order 0 0 120 [genB80, genA50]
    (by intro g hg ht; fin_cases hg <;> norm_num [genA50, genB80])
    (by intro g hg hb; fin_cases hg <;> simp_all [genA50, genB80])).2.2.2.2

/-- C1 counterexample: with no demand, the gas turbine with minimum output
50 MW is dispatched at 0 MW, outside [min_mw, capacity], refuting that
every thermal generator output lies within that interval at every tick. -/
theorem economic_dispatch_min_violation :
    (economic_dispatch 0 0 0 [genIdle120]).1 = [genIdle120]
    ∧ genIdle120.current_output = 0
    ∧ genIdle120.min_mw = 50
    ∧ ¬ (∀ g ∈ (economic_dispatch 0 0 0 [genIdle120]).1,
        isThermal g.gtype = true →
          g.min_mw ≤ g.current_output ∧ g.current_output ≤ g.capacity_mw) := by
  have hres : (economic_dispatch 0 0 0 [genIdle120]).1 = [genIdle120] := by
    norm_num [economic_dispatch, sortByCost, List.insertionSort, List.orderedInsert,
      renewable_pass, thermal_pass, battery_pass, isRenewable, isThermal,
      solar_update, genIdle120]
  refine ⟨hres, rfl, rfl, ?_⟩
  intro hall
  have := hall genIdle120 (by rw [hres]; exact List.mem_singleton.2 rfl) rfl
  norm_num [genIdle120] at this

/-! ### Traffic-light phase machine (`app.py`, ManhattanTrafficController) -/

/-- Per-light state of the controller dict: current phase, phase timer and
the three configured durations. -/
structure TrafficLight where
  phase : ℕ
  timer : ℕ
  green_time : ℕ
  yellow_time : ℕ
  all_red_time : ℕ
  deriving DecidableEq

/-- Duration of the active phase as selected in `update_cycle`: green for
phases 0 and 3, yellow for 1 and 4, all-red otherwise. -/
def phase_duration (l : TrafficLight) : ℕ :=
  if l.phase = 0 ∨ l.phase = 3 then l.green_time
  else if l.phase = 1 ∨ l.phase = 4 then l.yellow_time
  else l.all_red_time

/-- One tick of `update_cycle` for one light: increment the timer; once it
reaches the active-phase duration, advance the phase by one modulo 6 and
reset the timer to zero. -/
def update_light (l : TrafficLight) : TrafficLight :=
  let t := l.timer + 1
  if phase_duration l ≤ t then
    { l with phase := (l.phase + 1) % 6, timer := 0 }
  else
    { l with timer := t }

/-- Iterated ticks of `update_cycle` for one light. -/
def update_light_iter : ℕ → TrafficLight → TrafficLight
  | 0, l => l
  | n + 1, l => update_light_iter n (update_light l)

/-- Iteration splits over addition. -/
theorem update_light_iter_add (m n : ℕ) (l : TrafficLight) :
    update_light_iter (m + n) l = update_light_iter n (update_light_iter m l) := by
  induction m generalizing l with
  | zero => simp [update_light_iter]
  | succ m ih =>
    have hms : m + 1 + n = (m + n) + 1 := by omega
    rw [hms]
    show update_light_iter (m + n) (update_light l) =
      update_light_iter n (update_light_iter m (update_light l))
    exact ih (update_light l)

/-- The phase duration does not depend on the timer. -/
theorem phase_duration_timer (l : TrafficLight) (t : ℕ) :
    phase_duration { l with timer := t } = phase_duration l := rfl

/-- Starting a phase with timer zero, the light advances exactly after the
full duration of that phase, ending with the next phase and timer zero. -/
theorem update_light_run_phase (j : ℕ) :
    ∀ l : TrafficLight, 1 ≤ j → l.timer + j = phase_duration l →
      update_light_iter j l = { l with phase := (l.phase + 1) % 6, timer := 0 } := by
  induction j with
  | zero => intro l h1; omega
  | succ j ih =>
    intro l _ hdur
    by_cases hj : j = 0
    · subst hj
      have hadv : phase_duration l ≤ l.timer + 1 := by omega
      show update_light_iter 0 (update_light l) = _
      rw [update_light_iter]
      unfold update_light
      simp only [if_pos hadv]
    · have hlt : ¬ phase_duration l ≤ l.timer + 1 := by omega
      show update_light_iter j (update_light l) = _
      have hstep : update_light l = { l with timer := l.timer + 1 } := by
        unfold update_light
        simp only [if_neg hlt]
      rw [hstep]
      have hrec := ih { l with timer := l.timer + 1 } (by omega)
        (by rw [phase_duration_timer]; simp only; omega)
      rw [hrec]

/-- C5: every tick keeps the phase in {0,...,5}; the phase either stays put
with the timer incremented (strictly below the active duration) or advances
by exactly one modulo 6 with the timer reset to zero, exactly when the
incremented timer reaches the active-phase duration; and from phase 0 with
timer 0 a full cycle takes exactly 2*(green+yellow+allred) ticks for any
positive durations. -/
theorem update_light_phase_machine (l : TrafficLight) (hp : l.phase < 6) :
    (update_light l).phase < 6
    ∧ ((phase_duration l ≤ l.timer + 1
          ∧ (update_light l).phase = (l.phase + 1) % 6
          ∧ (update_light l).timer = 0)
        ∨ (l.timer + 1 < phase_duration l
          ∧ (update_light l).phase = l.phase
          ∧ (update_light l).timer = l.timer + 1))
    ∧ (∀ g y r : ℕ, 1 ≤ g → 1 ≤ y → 1 ≤ r →
        update_light_iter (2 * (g + y + r)) ⟨0, 0, g, y, r⟩ = ⟨0, 0, g, y, r⟩) := by
  refine ⟨?_, ?_, ?_⟩
  · by_cases hadv : phase_duration l ≤ l.timer + 1
    · simp only [update_light, if_pos hadv]
      omega
    · simp only [update_light, if_neg hadv]
      exact hp
  · by_cases hadv : phase_duration l ≤ l.timer + 1
    · left
      exact ⟨hadv, by simp only [update_light, if_pos hadv],
        by simp only [update_light, if_pos hadv]⟩
    · right
      exact ⟨by omega, by simp only [update_light, if_neg hadv],
        by simp only [update_light, if_neg hadv]⟩
  · intro g y r hg hy hr
    have step0 : update_light_iter g ⟨0, 0, g, y, r⟩ = ⟨1, 0, g, y, r⟩ := by
      have := update_light_run_phase g ⟨0, 0, g, y, r⟩ hg (by simp [phase_duration])
      simpa using this
    have step1 : update_light_iter y ⟨1, 0, g, y, r⟩ = ⟨2, 0, g, y, r⟩ := by
      have := update_light_run_phase y ⟨1, 0, g, y, r⟩ hy (by simp [phase_duration])
      simpa using this
    have step2 : update_light_iter r ⟨2, 0, g, y, r⟩ = ⟨3, 0, g, y, r⟩ := by
      have := update_light_run_phase r ⟨2, 0, g, y, r⟩ hr (by simp [phase_duration])
      simpa using this
    have step3 : update_light_iter g ⟨3, 0, g, y, r⟩ = ⟨4, 0, g, y, r⟩ := by
      have := update_light_run_phase g ⟨3, 0, g, y, r⟩ hg (by simp [phase_duration])
      simpa using this
    have step4 : update_light_iter y ⟨4, 0, g, y, r⟩ = ⟨5, 0, g, y, r⟩ := by
      have := update_light_run_phase y ⟨4, 0, g, y, r⟩ hy (by simp [phase_duration])
      simpa using this
    have step5 : update_light_iter r ⟨5, 0, g, y, r⟩ = ⟨0, 0, g, y, r⟩ := by
      have := update_light_run_phase r ⟨5, 0, g, y, r⟩ hr (by simp [phase_duration])
      simpa using this
    have hsum : 2 * (g + y + r) = g + y + r + g + y + r := by ring
    rw [hsum]
    rw [update_light_iter_add (g + y + r + g + y) r]
    rw [update_light_iter_add (g + y + r + g) y]
    rw [update_light_iter_add (g + y + r) g]
    rw [update_light_iter_add (g + y) r]
    rw [update_light_iter_add g y]
    rw [step0, step1, step2, step3, step4, step5]

/-- Witness for C5 at the avenue pattern (35 s green, 3 s yellow, 2 s
all-red): a full cycle is 80 ticks. -/
theorem update_light_phase_machine_witness :
    TrafficLight.phase ⟨0, 0, 35, 3, 2⟩ < 6
    ∧ update_light_iter 80 ⟨0, 0, 35, 3, 2⟩ = ⟨0, 0, 35, 3, 2⟩ := by
  refine ⟨by norm_num, ?_⟩
  have h := (update_light_phase_machine ⟨0, 0, 35, 3, 2⟩ (by norm_num)).2.2
    35 3 2 (by norm_num) (by norm_num) (by norm_num)
  simpa using h

/-! ### Signal discovery and classification (`init_manhattan_lights`) -/

/-- Avenue or street pattern class. -/
inductive LightPattern where
  | AVENUE
  | STREET
  deriving DecidableEq

/-- The full per-light record built at signal discovery. -/
structure LightRec where
  pattern : LightPattern
  phase : ℕ
  timer : ℕ
  green_time : ℕ
  yellow_time : ℕ
  all_red_time : ℕ
  lon : ℚ
  lat : ℚ
  deriving DecidableEq

/-- Integer conversion truncating toward zero, as the source language
converts a float to int. -/
def pyInt (q : ℚ) : ℤ :=
  if 0 ≤ q then ⌊q⌋ else -⌊-q⌋

/-- Offset of an avenue light: `int((lat - 40.700) * 1000) % 60`; the
source-language modulo on a positive modulus is the nonnegative remainder,
which is the emod of the embedding. -/
def avenue_offset (lat : ℚ) : ℤ :=
  pyInt ((lat - 407/10) * 1000) % 60

/-- The record built for the signal at discovery index `i` with GPS
position `(lon, lat)`.  `draw i` is the value `random.randint(0, 30)`
produced for a street signal, an integer from 0 to 30 inclusive. -/
def init_light (i : ℕ) (lon lat : ℚ) (draw : ℕ → ℕ) : LightRec :=
  { pattern := if i % 3 = 0 then LightPattern.AVENUE else LightPattern.STREET
    phase := 0
    timer := if i % 3 = 0 then (avenue_offset lat).toNat else draw i
    green_time := if i % 3 = 0 then 35 else 25
    yellow_time := 3
    all_red_time := 2
    lon := lon
    lat := lat }

/-- The discovery loop over the filtered signal inventory, in order. -/
def init_manhattan_lights (sigs : List (ℚ × ℚ)) (draw : ℕ → ℕ) : List LightRec :=
  sigs.enum.map (fun p => init_light p.1 p.2.1 p.2.2 draw)

/-- C8 (amended): every third signal by discovery order is an avenue with
durations 35/3/2 and a timer offset derived from its latitude modulo 60
(hence below 60); the rest are streets with durations 25/3/2 and a
pseudo-random timer offset in [0, 30], the inclusive range of the
source-library integer draw. -/
theorem init_lights_classification (sigs : List (ℚ × ℚ)) (draw : ℕ → ℕ)
    (hdraw : ∀ i, draw i ≤ 30) (i : ℕ) (lon lat : ℚ)
    (hi : sigs[i]? = some (lon, lat)) :
    (init_manhattan_lights sigs draw)[i]? = some (init_light i lon lat draw)
    ∧ ((init_light i lon lat draw).pattern = LightPattern.AVENUE ↔ i % 3 = 0)
    ∧ (i % 3 = 0 →
        (init_light i lon lat draw).green_time = 35
        ∧ (init_light i lon lat draw).yellow_time = 3
        ∧ (init_light i lon lat draw).all_red_time = 2
        ∧ ((init_light i lon lat draw).timer : ℤ) = avenue_offset lat
        ∧ (init_light i lon lat draw).timer < 60)
    ∧ (i % 3 ≠ 0 →
        (init_light i lon lat draw).green_time = 25
        ∧ (init_light i lon lat draw).yellow_time = 3
        ∧ (init_light i lon lat draw).all_red_time = 2
        ∧ (init_light i lon lat draw).timer = draw i
        ∧ (init_light i lon lat draw).timer ≤ 30) := by
  have hoff0 : 0 ≤ avenue_offset lat :=
    Int.emod_nonneg _ (by norm_num)
  have hoff60 : avenue_offset lat < 60 :=
    Int.emod_lt_of_pos _ (by norm_num)
  refine ⟨?_, ?_, ?_, ?_⟩
  · unfold init_manhattan_lights
    rw [List.getElem?_map, List.getElem?_enum, hi]
    rfl
  · unfold init_light
    by_cases h3 : i % 3 = 0
    · simp [h3]
    · simp [h3]
  · intro h3
    refine ⟨by simp [init_light, h3], by simp [init_light, h3],
      by simp [init_light, h3], ?_, ?_⟩
    · simp only [init_light, h3, if_true]
      exact Int.toNat_of_nonneg hoff0
    · simp only [init_light, h3, if_true]
      omega
  · intro h3
    refine ⟨by simp [init_light, h3], by simp [init_light, h3],
      by simp [init_light, h3], by simp [init_light, h3], ?_⟩
    simp only [init_light, h3, if_false]
    exact hdraw i

/-- Witness for C8 (amended) on a two-signal inventory with draw 7. -/
theorem init_lights_classification_witness :
    (∀ i, (fun _ : ℕ => 7) i ≤ 30)
    ∧ ([((-74 : ℚ), (407574 : ℚ)/10000)] : List (ℚ × ℚ))[0]? =
        some ((-74 : ℚ), (407574 : ℚ)/10000)
    ∧ (init_manhattan_lights [((-74 : ℚ), (407574 : ℚ)/10000)] (fun _ => 7))[0]? =
        some (init_light 0 (-74) ((407574 : ℚ)/10000) (fun _ => 7)) := by
  have hdraw : ∀ i, (fun _ : ℕ => 7) i ≤ 30 := fun _ => by norm_num
  have hi : ([((-74 : ℚ), (407574 : ℚ)/10000)] : List (ℚ × ℚ))[0]? =
      some ((-74 : ℚ), (407574 : ℚ)/10000) := rfl
  exact ⟨hdraw, hi,
    (init_lights_classification [((-74 : ℚ), (407574 : ℚ)/10000)] (fun _ => 7)
      hdraw 0 (-74) ((407574 : ℚ)/10000) hi).1⟩

/-- C8 counterexample: the source-library integer draw is inclusive of 30,
so a street signal can start with timer offset exactly 30, which is not in
[0, 30). -/
theorem street_offset_can_be_30 :
    (init_manhattan_lights [((0 : ℚ), (0 : ℚ)), ((0 : ℚ), (0 : ℚ))] (fun _ => 30))[1]? =
        some (init_light 1 0 0 (fun _ => 30))
    ∧ (init_light 1 0 0 (fun _ => 30)).pattern = LightPattern.STREET
    ∧ (init_light 1 0 0 (fun _ => 30)).timer = 30
    ∧ ¬ ((init_light 1 0 0 (fun _ => 30)).timer < 30) := by
  refine ⟨?_, ?_, ?_, ?_⟩
  · unfold init_manhattan_lights
    rw [List.getElem?_map, List.getElem?_enum]
    rfl
  · rfl
  · rfl
  · norm_num [init_light]

/-! ### EV charging coordinator (`app.py`, ManhattanEVNetwork) -/

/-- One charging station with the fields `process_ev_charging` reads.
Identifiers are modelled as naturals. -/
structure Station where
  sid : ℕ
  lat : ℚ
  lon : ℚ
  power : ℚ
  capacity : ℕ
  deriving DecidableEq

/-- Per-vehicle EV state tracked in `self.ev_vehicles`. -/
structure EVData where
  battery : ℚ
  charging : Bool
  target_station : Option ℕ
  deriving DecidableEq

/-- One vehicle row of the external traffic snapshot. -/
structure Vehicle where
  vid : ℕ
  x : ℚ
  y : ℚ
  speed : ℚ
  deriving DecidableEq

/-- The per-tick station occupancy dict `self.charging_vehicles`, read
with the empty-list default of `.get(station_id, [])`. -/
def ChargingMap : Type := ℕ → List ℕ

/-- The tracked EV state dict `self.ev_vehicles`: a vehicle id maps to its
state when tracked, else to none. -/
def EVMap : Type := ℕ → Option EVData

/-- Write the occupancy list of a station id. -/
def cvSet (cv : ChargingMap) (sid : ℕ) (occ : List ℕ) : ChargingMap :=
  fun k => if k = sid then occ else cv k

/-- The empty occupancy dict of the start of a tick. -/
def cvEmpty : ChargingMap := fun _ => []

/-- Write the tracked state of a vehicle id. -/
def evSet (m : EVMap) (vid : ℕ) (d : EVData) : EVMap :=
  fun k => if k = vid then some d else m k

/-- The station loop of `process_ev_charging` for one vehicle: find the
first station whose latitude and longitude are each within the capture
radius; if it has free capacity and the vehicle is slower than 2.0, append
the vehicle to its occupancy, mark it charging, add 0.5 battery points
capped at 100, and stop charging (clearing the target) once the battery
reaches 95; then leave the loop.  Otherwise keep scanning.  The returned
flag records whether the vehicle was metered this tick.  The source also
materialises an empty occupancy list on a radius match before the capacity
test; with the empty-list default of `cvGet` that step does not change any
observable state.  The wall-clock session-energy bookkeeping, which feeds
back into no modelled field, is not modelled. -/
def station_scan (radius : ℚ) (v : Vehicle) :
    List Station → ChargingMap → EVData → ChargingMap × EVData × Bool
  | [], cv, ev => (cv, ev, false)
  | st :: rest, cv, ev =>
    if |v.y - st.lat| < radius ∧ |v.x - st.lon| < radius then
      if (cv st.sid).length < st.capacity ∧ v.speed < 2 then
        let battery2 := min 100 (ev.battery + 1/2)
        let ev2 : EVData :=
          if 95 ≤ battery2 then
            { battery := battery2, charging := false, target_station := none }
          else
            { battery := battery2, charging := true, target_station := ev.target_station }
        (cvSet cv st.sid (cv st.sid ++ [v.vid]), ev2, true)
      else
        station_scan radius v rest cv ev
    else
      station_scan radius v rest cv ev

/-- EV classification: `(hash(vid) % 100) < share` with the share clamped
to [0, 100]; the hash of the id is an oracle parameter `h`. -/
def classify_is_ev (h : ℕ → ℕ) (share : ℕ) (vid : ℕ) : Bool :=
  h vid % 100 < min share 100

/-- The capture radius: `0.002 + (bias / 100) * 0.006` with the bias
clamped to [0, 100]. -/
def capture_radius (bias : ℕ) : ℚ :=
  1/500 + ((min bias 100 : ℕ) : ℚ) / 100 * (3/500)

/-- Tracked-state read with lazy creation: the state of `self.ev_vehicles
[vid]`, created on first observation with a drawn battery, not charging and
no target. -/
def ev_lookup (m : EVMap) (initB : ℕ → ℚ) (vid : ℕ) : EVData :=
  (m vid).getD { battery := initB vid, charging := false, target_station := none }

/-- The needs-charging decision and routing request: a vehicle needs
charging when its battery is below 30, or below 50 with the biased coin
true; a needed vehicle not currently charging gets the routed station id as
target when the external router returns one. -/
def ev_route_update (needsRand : ℕ → Bool) (route : ℕ → Option ℕ) (vid : ℕ)
    (ev0 : EVData) : EVData :=
  if (ev0.battery < 30 ∨ (ev0.battery < 50 ∧ needsRand vid = true))
      ∧ ev0.charging = false then
    match route vid with
    | some sid => { ev0 with target_station := some sid }
    | none => ev0
  else ev0

/-- The body of the vehicle loop of `process_ev_charging`: skip non-EVs;
look up the tracked state, creating one on first observation; decide the
need to charge and ask the external router for a target; then run the
station loop and store the updated state. -/
def process_vehicle (stations : List Station) (h : ℕ → ℕ) (share bias : ℕ)
    (initB : ℕ → ℚ) (needsRand : ℕ → Bool) (route : ℕ → Option ℕ)
    (acc : EVMap × ChargingMap) (v : Vehicle) : EVMap × ChargingMap :=
  if classify_is_ev h share v.vid then
    let ev1 := ev_route_update needsRand route v.vid (ev_lookup acc.1 initB v.vid)
    let scan := station_scan (capture_radius bias) v stations acc.2 ev1
    (evSet acc.1 v.vid scan.2.1, scan.1)
  else acc

/-- One tick of `process_ev_charging` over the snapshot: reset the per-tick
occupancy dict, then run the vehicle loop; the final occupancy written back
onto each station is `cvGet` of the resulting map at its id. -/
def process_ev_charging (stations : List Station) (h : ℕ → ℕ) (share bias : ℕ)
    (initB : ℕ → ℚ) (needsRand : ℕ → Bool) (route : ℕ → Option ℕ)
    (m : EVMap) (vehicles : List Vehicle) : EVMap × ChargingMap :=
  vehicles.foldl (process_vehicle stations h share bias initB needsRand route)
    (m, cvEmpty)

/-- Reading an occupancy map after a write. -/
theorem cvSet_read (cv : ChargingMap) (k : ℕ) (occ : List ℕ) (k2 : ℕ) :
    cvSet cv k occ k2 = if k2 = k then occ else cv k2 := rfl

/-- Reading a tracked-state map after a write. -/
theorem evSet_read (m : EVMap) (k : ℕ) (d : EVData) (k2 : ℕ) :
    evSet m k d k2 = if k2 = k then some d else m k2 := rfl

/-- Characterization of the station loop: when the vehicle is metered, its
battery gains exactly half a point capped at 100, some scanned station
matched the radius with free capacity at a low speed, and the charging flag
ends true exactly when the new battery is below 95; when it is not metered,
its state is untouched. -/
theorem station_scan_spec (radius : ℚ) (v : Vehicle) (stations : List Station)
    (cv : ChargingMap) (ev : EVData) :
    ((station_scan radius v stations cv ev).2.2 = true →
      (station_scan radius v stations cv ev).2.1.battery = min 100 (ev.battery + 1/2)
      ∧ (∃ st ∈ stations, |v.y - st.lat| < radius ∧ |v.x - st.lon| < radius
          ∧ (cv st.sid).length < st.capacity ∧ v.speed < 2)
      ∧ (95 ≤ (station_scan radius v stations cv ev).2.1.battery →
          (station_scan radius v stations cv ev).2.1.charging = false)
      ∧ ((station_scan radius v stations cv ev).2.1.battery < 95 →
          (station_scan radius v stations cv ev).2.1.charging = true))
    ∧ ((station_scan radius v stations cv ev).2.2 = false →
      (station_scan radius v stations cv ev).2.1 = ev) := by
  induction stations with
  | nil =>
    constructor
    · intro h
      exact absurd h (by simp [station_scan])
    · intro _
      rfl
  | cons st rest ih =>
    by_cases hrad : |v.y - st.lat| < radius ∧ |v.x - st.lon| < radius
    · by_cases hcap : (cv st.sid).length < st.capacity ∧ v.speed < 2
      · have hscan : station_scan radius v (st :: rest) cv ev =
            (cvSet cv st.sid (cv st.sid ++ [v.vid]),
              if 95 ≤ min 100 (ev.battery + 1/2) then
                ⟨min 100 (ev.battery + 1/2), false, none⟩
              else
                ⟨min 100 (ev.battery + 1/2), true, ev.target_station⟩,
              true) := by
          simp only [station_scan, if_pos hrad, if_pos hcap]
        rw [hscan]
        constructor
        · intro _
          by_cases h95 : 95 ≤ min 100 (ev.battery + 1/2)
          · refine ⟨?_, ?_, ?_, ?_⟩
            · rw [if_pos h95]
            · exact ⟨st, List.mem_cons_self st rest, hrad.1, hrad.2,
                hcap.1, hcap.2⟩
            · intro _
              rw [if_pos h95]
            · intro hlt
              rw [if_pos h95] at hlt
              exact absurd h95 (not_le.2 hlt)
          · refine ⟨?_, ?_, ?_, ?_⟩
            · rw [if_neg h95]
            · exact ⟨st, List.mem_cons_self st rest, hrad.1, hrad.2,
                hcap.1, hcap.2⟩
            · intro hge
              rw [if_neg h95] at hge
              exact absurd hge h95
            · intro _
              rw [if_neg h95]
        · intro hfalse
          exact absurd hfalse (by simp)
      · have hscan : station_scan radius v (st :: rest) cv ev =
            station_scan radius v rest cv ev := by
          simp only [station_scan, if_pos hrad, if_neg hcap]
        rw [hscan]
        refine ⟨fun ht => ?_, (ih).2⟩
        obtain ⟨hb, ⟨st2, hst2, hprop⟩, hc⟩ := (ih).1 ht
        exact ⟨hb, ⟨st2, List.mem_cons_of_mem st hst2, hprop⟩, hc⟩
    · have hscan : station_scan radius v (st :: rest) cv ev =
          station_scan radius v rest cv ev := by
        simp only [station_scan, if_neg hrad]
      rw [hscan]
      refine ⟨fun ht => ?_, (ih).2⟩
      obtain ⟨hb, ⟨st2, hst2, hprop⟩, hc⟩ := (ih).1 ht
      exact ⟨hb, ⟨st2, List.mem_cons_of_mem st hst2, hprop⟩, hc⟩

/-- The station loop keeps the battery within [0, 100]. -/
theorem station_scan_battery_bounds (radius : ℚ) (v : Vehicle)
    (stations : List Station) (cv : ChargingMap) (ev : EVData)
    (h0 : 0 ≤ ev.battery) (h100 : ev.battery ≤ 100) :
    0 ≤ (station_scan radius v stations cv ev).2.1.battery
    ∧ (station_scan radius v stations cv ev).2.1.battery ≤ 100 := by
  rcases hb : (station_scan radius v stations cv ev).2.2 with _ | _
  · have := (station_scan_spec radius v stations cv ev).2 hb
    rw [this]
    exact ⟨h0, h100⟩
  · have hbat := ((station_scan_spec radius v stations cv ev).1 hb).1
    rw [hbat]
    constructor
    · exact le_min (by norm_num) (by linarith)
    · exact min_le_left _ _

/-- The station loop preserves the occupancy bound for every station of a
table with distinct ids, since it appends a vehicle only to a station with
free capacity. -/
theorem station_scan_occupancy (radius : ℚ) (v : Vehicle)
    (stations : List Station)
    (hinj : ∀ a ∈ stations, ∀ b ∈ stations, a.sid = b.sid → a = b) :
    ∀ (sub : List Station), (∀ st ∈ sub, st ∈ stations) →
      ∀ (cv : ChargingMap) (ev : EVData),
      (∀ st ∈ stations, (cv st.sid).length ≤ st.capacity) →
      ∀ st ∈ stations,
        ((station_scan radius v sub cv ev).1 st.sid).length ≤ st.capacity := by
  intro sub
  induction sub with
  | nil =>
    intro _ cv ev hinv st hst
    exact hinv st hst
  | cons st0 rest ih =>
    intro hsub cv ev hinv st hst
    have hst0 : st0 ∈ stations := hsub st0 (List.mem_cons_self st0 rest)
    have hsub_rest : ∀ s ∈ rest, s ∈ stations :=
      fun s hs => hsub s (List.mem_cons_of_mem st0 hs)
    by_cases hrad : |v.y - st0.lat| < radius ∧ |v.x - st0.lon| < radius
    · by_cases hcap : (cv st0.sid).length < st0.capacity ∧ v.speed < 2
      · have hscan : (station_scan radius v (st0 :: rest) cv ev).1 =
            cvSet cv st0.sid (cv st0.sid ++ [v.vid]) := by
          simp only [station_scan, if_pos hrad, if_pos hcap]
        rw [hscan]
        rw [cvSet_read]
        by_cases hid : st.sid = st0.sid
        · rw [if_pos hid]
          have hsame : st = st0 := hinj st hst st0 hst0 hid
          rw [List.length_append]
          subst hsame
          simp only [List.length_singleton]
          omega
        · rw [if_neg hid]
          exact hinv st hst
      · have hscan : station_scan radius v (st0 :: rest) cv ev =
            station_scan radius v rest cv ev := by
          simp only [station_scan, if_pos hrad, if_neg hcap]
        rw [hscan]
        exact ih hsub_rest cv ev hinv st hst
    · have hscan : station_scan radius v (st0 :: rest) cv ev =
          station_scan radius v rest cv ev := by
        simp only [station_scan, if_neg hrad]
      rw [hscan]
      exact ih hsub_rest cv ev hinv st hst

/-- The routing step changes neither battery nor charging flag. -/
theorem ev_route_update_same (needsRand : ℕ → Bool) (route : ℕ → Option ℕ)
    (vid : ℕ) (ev0 : EVData) :
    (ev_route_update needsRand route vid ev0).battery = ev0.battery
    ∧ (ev_route_update needsRand route vid ev0).charging = ev0.charging := by
  unfold ev_route_update
  split_ifs
  · cases route vid <;> simp
  · exact ⟨rfl, rfl⟩

/-- Unfolding the vehicle-loop body for an EV-classified vehicle. -/
theorem process_vehicle_ev_eq (stations : List Station) (h : ℕ → ℕ)
    (share bias : ℕ) (initB : ℕ → ℚ) (needsRand : ℕ → Bool)
    (route : ℕ → Option ℕ) (acc : EVMap × ChargingMap) (v : Vehicle)
    (hev : classify_is_ev h share v.vid = true) :
    process_vehicle stations h share bias initB needsRand route acc v =
      (evSet acc.1 v.vid
        (station_scan (capture_radius bias) v stations acc.2
          (ev_route_update needsRand route v.vid (ev_lookup acc.1 initB v.vid))).2.1,
       (station_scan (capture_radius bias) v stations acc.2
          (ev_route_update needsRand route v.vid (ev_lookup acc.1 initB v.vid))).1) := by
  simp [process_vehicle, hev]

/-- Unfolding the vehicle-loop body for a non-EV vehicle. -/
theorem process_vehicle_nonev_eq (stations : List Station) (h : ℕ → ℕ)
    (share bias : ℕ) (initB : ℕ → ℚ) (needsRand : ℕ → Bool)
    (route : ℕ → Option ℕ) (acc : EVMap × ChargingMap) (v : Vehicle)
    (hev : classify_is_ev h share v.vid = false) :
    process_vehicle stations h share bias initB needsRand route acc v = acc := by
  simp [process_vehicle, hev]

/-- The vehicle-loop body keeps every tracked battery within [0, 100],
provided fresh batteries are drawn from [20, 80]. -/
theorem process_vehicle_battery_inv (stations : List Station) (h : ℕ → ℕ)
    (share bias : ℕ) (initB : ℕ → ℚ) (needsRand : ℕ → Bool)
    (route : ℕ → Option ℕ) (acc : EVMap × ChargingMap) (v : Vehicle)
    (hinit : ∀ i, 20 ≤ initB i ∧ initB i ≤ 80)
    (hmap : ∀ i d, acc.1 i = some d → 0 ≤ d.battery ∧ d.battery ≤ 100) :
    ∀ i d, (process_vehicle stations h share bias initB needsRand route acc v).1 i
      = some d → 0 ≤ d.battery ∧ d.battery ≤ 100 := by
  intro i d hid
  by_cases hev : classify_is_ev h share v.vid = true
  · rw [process_vehicle_ev_eq stations h share bias initB needsRand route acc v hev]
      at hid
    dsimp only at hid
    rw [evSet_read] at hid
    by_cases hi : i = v.vid
    · rw [if_pos hi] at hid
      have hd := (Option.some.inj hid).symm
      have hev0 : 0 ≤ (ev_lookup acc.1 initB v.vid).battery
          ∧ (ev_lookup acc.1 initB v.vid).battery ≤ 100 := by
        unfold ev_lookup
        cases hl : acc.1 v.vid with
        | none =>
          have := hinit v.vid
          simp only [Option.getD_none]
          exact ⟨by linarith [this.1], by linarith [this.2]⟩
        | some d0 =>
          simp only [Option.getD_some]
          exact hmap v.vid d0 hl
      have hb1 := (ev_route_update_same needsRand route v.vid
        (ev_lookup acc.1 initB v.vid)).1
      have hbounds := station_scan_battery_bounds (capture_radius bias) v stations
        acc.2 (ev_route_update needsRand route v.vid (ev_lookup acc.1 initB v.vid))
        (by rw [hb1]; exact hev0.1) (by rw [hb1]; exact hev0.2)
      rw [hd]
      exact hbounds
    · rw [if_neg hi] at hid
      exact hmap i d hid
  · have hev2 : classify_is_ev h share v.vid = false := by
      cases hc : classify_is_ev h share v.vid
      · rfl
      · exact absurd hc hev
    rw [process_vehicle_nonev_eq stations h share bias initB needsRand route acc v
      hev2] at hid
    exact hmap i d hid

/-- The vehicle-loop body preserves the occupancy bound. -/
theorem process_vehicle_cv_inv (stations : List Station) (h : ℕ → ℕ)
    (share bias : ℕ) (initB : ℕ → ℚ) (needsRand : ℕ → Bool)
    (route : ℕ → Option ℕ) (acc : EVMap × ChargingMap) (v : Vehicle)
    (hinj : ∀ a ∈ stations, ∀ b ∈ stations, a.sid = b.sid → a = b)
    (hinv : ∀ st ∈ stations, (acc.2 st.sid).length ≤ st.capacity) :
    ∀ st ∈ stations,
      ((process_vehicle stations h share bias initB needsRand route acc v).2 st.sid).length
        ≤ st.capacity := by
  by_cases hev : classify_is_ev h share v.vid = true
  · rw [process_vehicle_ev_eq stations h share bias initB needsRand route acc v hev]
    exact station_scan_occupancy (capture_radius bias) v stations hinj stations
      (fun s hs => hs) acc.2 _ hinv
  · have hev2 : classify_is_ev h share v.vid = false := by
      cases hc : classify_is_ev h share v.vid
      · rfl
      · exact absurd hc hev
    rw [process_vehicle_nonev_eq stations h share bias initB needsRand route acc v
      hev2]
    exact hinv

/-- The whole-tick fold keeps every tracked battery within [0, 100]. -/
theorem process_ev_charging_battery_inv (stations : List Station) (h : ℕ → ℕ)
    (share bias : ℕ) (initB : ℕ → ℚ) (needsRand : ℕ → Bool)
    (route : ℕ → Option ℕ) (m : EVMap) (vehicles : List Vehicle)
    (hinit : ∀ i, 20 ≤ initB i ∧ initB i ≤ 80)
    (hmap : ∀ i d, m i = some d → 0 ≤ d.battery ∧ d.battery ≤ 100) :
    ∀ i d, (process_ev_charging stations h share bias initB needsRand route
      m vehicles).1 i = some d → 0 ≤ d.battery ∧ d.battery ≤ 100 := by
  suffices hgen : ∀ (vs : List Vehicle) (acc : EVMap × ChargingMap),
      (∀ i d, acc.1 i = some d → 0 ≤ d.battery ∧ d.battery ≤ 100) →
      ∀ i d, (vs.foldl (process_vehicle stations h share bias initB needsRand route)
        acc).1 i = some d → 0 ≤ d.battery ∧ d.battery ≤ 100 by
    exact hgen vehicles (m, cvEmpty) hmap
  intro vs
  induction vs with
  | nil => intro acc hacc; exact hacc
  | cons v vs ih =>
    intro acc hacc
    exact ih _ (process_vehicle_battery_inv stations h share bias initB needsRand
      route acc v hinit hacc)

/-- C3: across the charging process the battery stays in [0, 100] (for the
station loop of one tick and for the tracked map over any whole tick); a
metered vehicle gains exactly 0.5 points capped at 100 and is metered only
when some station matches the capture radius per coordinate with free
capacity while the vehicle moves slower than 2.0; and whenever the battery
reaches 95 while charging, the charging flag is false within the same tick
(the flag is true after a metered tick exactly below 95). -/
theorem ev_battery_charging_machine (radius : ℚ) (v : Vehicle)
    (stations : List Station) (cv : ChargingMap) (ev : EVData)
    (h0 : 0 ≤ ev.battery) (h100 : ev.battery ≤ 100) :
    0 ≤ (station_scan radius v stations cv ev).2.1.battery
    ∧ (station_scan radius v stations cv ev).2.1.battery ≤ 100
    ∧ ((station_scan radius v stations cv ev).2.2 = true →
        (station_scan radius v stations cv ev).2.1.battery = min 100 (ev.battery + 1/2)
        ∧ (∃ st ∈ stations, |v.y - st.lat| < radius ∧ |v.x - st.lon| < radius
            ∧ (cv st.sid).length < st.capacity ∧ v.speed < 2)
        ∧ (95 ≤ (station_scan radius v stations cv ev).2.1.battery →
            (station_scan radius v stations cv ev).2.1.charging = false)
        ∧ ((station_scan radius v stations cv ev).2.1.battery < 95 →
            (station_scan radius v stations cv ev).2.1.charging = true))
    ∧ ((station_scan radius v stations cv ev).2.2 = false →
        (station_scan radius v stations cv ev).2.1 = ev)
    ∧ (∀ (h : ℕ → ℕ) (share bias : ℕ) (initB : ℕ → ℚ) (needsRand : ℕ → Bool)
        (route : ℕ → Option ℕ) (m : EVMap) (vehicles : List Vehicle),
        (∀ i, 20 ≤ initB i ∧ initB i ≤ 80) →
        (∀ i d, m i = some d → 0 ≤ d.battery ∧ d.battery ≤ 100) →
        ∀ i d, (process_ev_charging stations h share bias initB needsRand route
          m vehicles).1 i = some d → 0 ≤ d.battery ∧ d.battery ≤ 100) := by
  obtain ⟨hb0, hb100⟩ :=
    station_scan_battery_bounds radius v stations cv ev h0 h100
  obtain ⟨hspec1, hspec2⟩ := station_scan_spec radius v stations cv ev
  exact ⟨hb0, hb100, hspec1, hspec2,
    fun h share bias initB needsRand route m vehicles hinit hmap =>
      process_ev_charging_battery_inv stations h share bias initB needsRand route
        m vehicles hinit hmap⟩

/-- Witness for C3 on a concrete metered vehicle at a free station. -/
theorem ev_battery_charging_machine_witness :
    (0 : ℚ) ≤ 50 ∧ (50 : ℚ) ≤ 100
    ∧ 0 ≤ (station_scan 1 ⟨7, 0, 0, 0⟩ [⟨3, 0, 0, 150, 6⟩] cvEmpty
        ⟨50, false, none⟩).2.1.battery := by
  refine ⟨by norm_num, by norm_num, ?_⟩
  exact (ev_battery_charging_machine 1 ⟨7, 0, 0, 0⟩ [⟨3, 0, 0, 150, 6⟩] cvEmpty
    ⟨50, false, none⟩ (by norm_num) (by norm_num)).1

/-- C4: over one whole tick of the charging process, no station of a table
with distinct ids ever holds more vehicles than its configured capacity,
since a vehicle id is appended only while the occupancy is strictly below
capacity, starting from the empty per-tick occupancy dict. -/
theorem station_capacity_hard_cap (stations : List Station) (h : ℕ → ℕ)
    (share bias : ℕ) (initB : ℕ → ℚ) (needsRand : ℕ → Bool)
    (route : ℕ → Option ℕ) (m : EVMap) (vehicles : List Vehicle)
    (hnd : (stations.map Station.sid).Nodup) :
    ∀ st ∈ stations,
      ((process_ev_charging stations h share bias initB needsRand route
        m vehicles).2 st.sid).length ≤ st.capacity := by
  have hinj : ∀ a ∈ stations, ∀ b ∈ stations, a.sid = b.sid → a = b :=
    fun a ha b hb hab => List.inj_on_of_nodup_map hnd ha hb hab
  suffices hgen : ∀ (vs : List Vehicle) (acc : EVMap × ChargingMap),
      (∀ st ∈ stations, (acc.2 st.sid).length ≤ st.capacity) →
      ∀ st ∈ stations,
        ((vs.foldl (process_vehicle stations h share bias initB needsRand route)
          acc).2 st.sid).length ≤ st.capacity by
    exact hgen vehicles (m, cvEmpty)
      (fun st _ => by simp [cvEmpty])
  intro vs
  induction vs with
  | nil => intro acc hacc; exact hacc
  | cons v vs ih =>
    intro acc hacc
    exact ih _ (process_vehicle_cv_inv stations h share bias initB needsRand route
      acc v hinj hacc)

/-- Witness for C4 on a concrete one-station table. -/
theorem station_capacity_hard_cap_witness :
    ([⟨3, 0, 0, 150, 6⟩] : List Station).map Station.sid = [3]
    ∧ ((process_ev_charging [⟨3, 0, 0, 150, 6⟩] (fun _ => 0) 30 30 (fun _ => 50)
        (fun _ => false) (fun _ => none) (fun _ => none) []).2 3).length ≤ 6 := by
  refine ⟨rfl, ?_⟩
  exact station_capacity_hard_cap [⟨3, 0, 0, 150, 6⟩] (fun _ => 0) 30 30
    (fun _ => 50) (fun _ => false) (fun _ => none) (fun _ => none) []
    (by simp) ⟨3, 0, 0, 150, 6⟩ (List.mem_singleton.2 rfl)

/-- The vehicle-loop body never discards a tracked state. -/
theorem process_vehicle_persist (stations : List Station) (h : ℕ → ℕ)
    (share bias : ℕ) (initB : ℕ → ℚ) (needsRand : ℕ → Bool)
    (route : ℕ → Option ℕ) (acc : EVMap × ChargingMap) (v : Vehicle) (i : ℕ)
    (hsome : (acc.1 i).isSome = true) :
    ((process_vehicle stations h share bias initB needsRand route acc v).1 i).isSome
      = true := by
  by_cases hev : classify_is_ev h share v.vid = true
  · rw [process_vehicle_ev_eq stations h share bias initB needsRand route acc v hev]
    dsimp only
    rw [evSet_read]
    by_cases hi : i = v.vid
    · rw [if_pos hi]
      rfl
    · rw [if_neg hi]
      exact hsome
  · have hev2 : classify_is_ev h share v.vid = false := by
      cases hc : classify_is_ev h share v.vid
      · rfl
      · exact absurd hc hev
    rw [process_vehicle_nonev_eq stations h share bias initB needsRand route acc v
      hev2]
    exact hsome

/-- Observing an EV-classified vehicle creates (or refreshes) its tracked
state within the vehicle-loop body. -/
theorem process_vehicle_creates (stations : List Station) (h : ℕ → ℕ)
    (share bias : ℕ) (initB : ℕ → ℚ) (needsRand : ℕ → Bool)
    (route : ℕ → Option ℕ) (acc : EVMap × ChargingMap) (v : Vehicle)
    (hev : classify_is_ev h share v.vid = true) :
    ((process_vehicle stations h share bias initB needsRand route acc v).1 v.vid).isSome
      = true := by
  rw [process_vehicle_ev_eq stations h share bias initB needsRand route acc v hev]
  dsimp only
  rw [evSet_read, if_pos rfl]
  rfl

/-- The vehicle-loop body leaves the tracked state of every other vehicle,
and of a non-EV vehicle, untouched. -/
theorem process_vehicle_other (stations : List Station) (h : ℕ → ℕ)
    (share bias : ℕ) (initB : ℕ → ℚ) (needsRand : ℕ → Bool)
    (route : ℕ → Option ℕ) (acc : EVMap × ChargingMap) (v : Vehicle) (i : ℕ)
    (hcase : i ≠ v.vid ∨ classify_is_ev h share v.vid = false) :
    (process_vehicle stations h share bias initB needsRand route acc v).1 i
      = acc.1 i := by
  by_cases hev : classify_is_ev h share v.vid = true
  · have hi : i ≠ v.vid := by
      rcases hcase with hne | hfalse
      · exact hne
      · rw [hev] at hfalse
        exact absurd hfalse (by simp)
    rw [process_vehicle_ev_eq stations h share bias initB needsRand route acc v hev]
    dsimp only
    rw [evSet_read, if_neg hi]
  · have hev2 : classify_is_ev h share v.vid = false := by
      cases hc : classify_is_ev h share v.vid
      · rfl
      · exact absurd hc hev
    rw [process_vehicle_nonev_eq stations h share bias initB needsRand route acc v
      hev2]

/-- A tracked state survives a whole tick of the vehicle loop. -/
theorem fold_persist (stations : List Station) (h : ℕ → ℕ) (share bias : ℕ)
    (initB : ℕ → ℚ) (needsRand : ℕ → Bool) (route : ℕ → Option ℕ) (i : ℕ) :
    ∀ (vs : List Vehicle) (acc : EVMap × ChargingMap),
      (acc.1 i).isSome = true →
      ((vs.foldl (process_vehicle stations h share bias initB needsRand route)
        acc).1 i).isSome = true := by
  intro vs
  induction vs with
  | nil => intro acc hacc; exact hacc
  | cons v vs ih =>
    intro acc hacc
    exact ih _ (process_vehicle_persist stations h share bias initB needsRand route
      acc v i hacc)

/-- A tick of the vehicle loop ends with a tracked state for every
EV-classified vehicle observed in it. -/
theorem fold_creates (stations : List Station) (h : ℕ → ℕ) (share bias : ℕ)
    (initB : ℕ → ℚ) (needsRand : ℕ → Bool) (route : ℕ → Option ℕ) (i : ℕ) :
    ∀ (vs : List Vehicle) (acc : EVMap × ChargingMap),
      (∃ v ∈ vs, v.vid = i ∧ classify_is_ev h share v.vid = true) →
      ((vs.foldl (process_vehicle stations h share bias initB needsRand route)
        acc).1 i).isSome = true := by
  intro vs
  induction vs with
  | nil =>
    intro acc hex
    obtain ⟨v, hv, _⟩ := hex
    exact absurd hv (List.not_mem_nil v)
  | cons v vs ih =>
    intro acc hex
    by_cases hv : v.vid = i ∧ classify_is_ev h share v.vid = true
    · refine fold_persist stations h share bias initB needsRand route i vs _ ?_
      rw [← hv.1]
      exact process_vehicle_creates stations h share bias initB needsRand route
        acc v hv.2
    · obtain ⟨v2, hv2, hvid2, hev2⟩ := hex
      rcases List.mem_cons.1 hv2 with heq | htail
      · exfalso
        rw [heq] at hvid2 hev2
        exact hv ⟨hvid2, hev2⟩
      · exact ih _ ⟨v2, htail, hvid2, hev2⟩

/-- A vehicle never observed as an EV in a tick gains no tracked state in
that tick. -/
theorem fold_no_create (stations : List Station) (h : ℕ → ℕ) (share bias : ℕ)
    (initB : ℕ → ℚ) (needsRand : ℕ → Bool) (route : ℕ → Option ℕ) (i : ℕ) :
    ∀ (vs : List Vehicle) (acc : EVMap × ChargingMap),
      acc.1 i = none →
      (∀ v ∈ vs, v.vid = i → classify_is_ev h share v.vid = false) →
      (vs.foldl (process_vehicle stations h share bias initB needsRand route)
        acc).1 i = none := by
  intro vs
  induction vs with
  | nil => intro acc hacc _; exact hacc
  | cons v vs ih =>
    intro acc hacc hall
    have hstep : (process_vehicle stations h share bias initB needsRand route
        acc v).1 i = none := by
      by_cases hvid : v.vid = i
      · rw [process_vehicle_other stations h share bias initB needsRand route acc v i
          (Or.inr (hall v (List.mem_cons_self v vs) hvid))]
        exact hacc
      · rw [process_vehicle_other stations h share bias initB needsRand route acc v i
          (Or.inl (fun hc => hvid hc.symm))]
        exact hacc
    exact ih _ hstep (fun v2 hv2 => hall v2 (List.mem_cons_of_mem v hv2))

/-- C9 (amended): a per-vehicle EV state is created lazily, within the tick
in which an EV-classified vehicle id is first observed, and never for an id
not observed as an EV; but states are never destroyed: a tracked state
survives every later tick whether or not its vehicle still appears in the
snapshot. -/
theorem ev_state_lazy_create_persist (stations : List Station) (h : ℕ → ℕ)
    (share bias : ℕ) (initB : ℕ → ℚ) (needsRand : ℕ → Bool)
    (route : ℕ → Option ℕ) (m : EVMap) (vehicles : List Vehicle) (i : ℕ) :
    ((m i).isSome = true →
      ((process_ev_charging stations h share bias initB needsRand route
        m vehicles).1 i).isSome = true)
    ∧ ((∃ v ∈ vehicles, v.vid = i ∧ classify_is_ev h share v.vid = true) →
      ((process_ev_charging stations h share bias initB needsRand route
        m vehicles).1 i).isSome = true)
    ∧ (m i = none →
      (∀ v ∈ vehicles, v.vid = i → classify_is_ev h share v.vid = false) →
      (process_ev_charging stations h share bias initB needsRand route
        m vehicles).1 i = none) := by
  refine ⟨?_, ?_, ?_⟩
  · intro hsome
    exact fold_persist stations h share bias initB needsRand route i vehicles
      (m, cvEmpty) hsome
  · intro hex
    exact fold_creates stations h share bias initB needsRand route i vehicles
      (m, cvEmpty) hex
  · intro hnone hall
    exact fold_no_create stations h share bias initB needsRand route i vehicles
      (m, cvEmpty) hnone hall

/-- Witness for C9 (amended): a single observed EV-classified vehicle gets
a tracked state within the tick. -/
theorem ev_state_lazy_create_persist_witness :
    (∃ v ∈ [(⟨5, 0, 0, 0⟩ : Vehicle)], v.vid = 5
      ∧ classify_is_ev (fun _ => 0) 30 v.vid = true)
    ∧ ((process_ev_charging [] (fun _ => 0) 30 30 (fun _ => 50) (fun _ => false)
        (fun _ => none) (fun _ => none) [⟨5, 0, 0, 0⟩]).1 5).isSome = true := by
  have hex : ∃ v ∈ [(⟨5, 0, 0, 0⟩ : Vehicle)], v.vid = 5
      ∧ classify_is_ev (fun _ => 0) 30 v.vid = true :=
    ⟨⟨5, 0, 0, 0⟩, List.mem_singleton.2 rfl, rfl, by decide⟩
  exact ⟨hex,
    (ev_state_lazy_create_persist [] (fun _ => 0) 30 30 (fun _ => 50)
      (fun _ => false) (fun _ => none) (fun _ => none) [⟨5, 0, 0, 0⟩] 5).2.1 hex⟩

/-- C9 counterexample: a vehicle tracked in one tick keeps its state in a
later tick whose snapshot no longer contains it, refuting that every
tracked EV state belongs to a vehicle present in the current snapshot. -/
theorem ev_state_never_destroyed :
    ((process_ev_charging [] (fun _ => 0) 30 30 (fun _ => 50) (fun _ => false)
        (fun _ => none)
        ((process_ev_charging [] (fun _ => 0) 30 30 (fun _ => 50) (fun _ => false)
          (fun _ => none) (fun _ => none) [⟨5, 0, 0, 0⟩]).1) []).1 5).isSome = true
    ∧ ∀ v ∈ ([] : List Vehicle), v.vid ≠ 5 := by
  constructor
  · have h1 : ((process_ev_charging [] (fun _ => 0) 30 30 (fun _ => 50)
        (fun _ => false) (fun _ => none) (fun _ => none) [⟨5, 0, 0, 0⟩]).1 5).isSome
        = true :=
      fold_creates [] (fun _ => 0) 30 30 (fun _ => 50) (fun _ => false)
        (fun _ => none) 5 [⟨5, 0, 0, 0⟩] (fun _ => none, cvEmpty)
        ⟨⟨5, 0, 0, 0⟩, List.mem_singleton.2 rfl, rfl, by decide⟩
    exact fold_persist [] (fun _ => 0) 30 30 (fun _ => 50) (fun _ => false)
      (fun _ => none) 5 []
      ((process_ev_charging [] (fun _ => 0) 30 30 (fun _ => 50) (fun _ => false)
        (fun _ => none) (fun _ => none) [⟨5, 0, 0, 0⟩]).1, cvEmpty) h1
  · intro v hv
    exact absurd hv (List.not_mem_nil v)

end SUMOxPyPSA
